import Mathlib

/-!
Shallow embedding of the manual_review consensus engine and assignment
manager, translated from:
  * backend/services/aggregation.py  (grouping + consensus)
  * backend/services/arbitration.py  (decide / undo)
  * backend/services/assignment.py   (locks, heartbeats, assignment)
  * backend/domain/assertions.py     (make_assertion_id)

Modelling conventions:
  * JSON log records become the structure `Rec`; a field that the code reads
    with `dict.get` is an `Option`; `none` models both an absent key and a
    JSON null.
  * Python strings are Lean `String`s; `.strip()` / `.lower()` are embedded
    as character-list operations (`pyStrip` / `pyLower`) so that concrete
    instances reduce inside the kernel.
  * Timestamps are integers (`Int`); the code only compares, sorts and
    defaults them, so the float representation is irrelevant.  The value of
    a `created_at` / `timestamp` JSON entry is embedded as `TsVal`, which
    distinguishes numbers, numeric strings, unparseable strings and absent
    values exactly as `_ts` does.
  * Python's `list.sort(key=_ts)` is a stable ascending sort; it is embedded
    as the stable insertion sort `sortByTs` (extensionally equal to any
    stable ascending sort, hence to Timsort).
  * The optional Mongo mirror in assignment.py is modelled as absent
    (`db = None`), which is the default configuration; then
    `_db_lock_is_held_by_others` is constantly `False` and drops out.
-/

namespace ManualReview

/-- Python `str.lower()` (per-character lowering, as used on ASCII emails
and action strings in the source). -/
def pyLower (s : String) : String := ⟨s.data.map Char.toLower⟩

/-- Python `str.strip()`: drop leading and trailing whitespace. -/
def pyStrip (s : String) : String :=
  ⟨((s.data.dropWhile Char.isWhitespace).reverse.dropWhile Char.isWhitespace).reverse⟩

/-- Python `a or b` for an optional string `a`: `a` when it is truthy
(present and non-empty), else `b`. -/
def pyOr (a : Option String) (b : String) : String :=
  match a with
  | none => b
  | some s => if s = "" then b else s

/-- Python `str(x)` for an optional string: `None` renders as `"None"`. -/
def pyStr (a : Option String) : String :=
  match a with
  | none => "None"
  | some s => s

/-- The value found under a `created_at` / `timestamp` key, as classified by
`_ts` in aggregation.py: a number, a non-empty string that `float()` parses,
an empty or unparseable string, or no value at all. -/
inductive TsVal where
  | num (v : Int)
  | strNum (v : Int)
  | strBad
  | missing
deriving DecidableEq, Repr

/-- The numeric reading of one timestamp field: `some v` when `_ts` would
accept it, `none` when `_ts` skips to the next key. -/
def tsField : TsVal → Option Int
  | .num v => some v
  | .strNum v => some v
  | .strBad => none
  | .missing => none

/-- One review-log record (a JSONL line), with exactly the keys read by the
verified functions.  The nested `original_arbitration` payload written by
`undo_arbitration` is omitted: no verified function ever reads it. -/
structure Rec where
  action : Option String := none
  pmid : Option String := none
  abstract_id : Option String := none
  abs_id : Option String := none
  content_hash : Option String := none
  related_to : Option String := none
  assertion_id : Option String := none
  assertion_key : Option String := none
  subject : Option String := none
  subject_type : Option String := none
  predicate : Option String := none
  object : Option String := none
  object_type : Option String := none
  negation : Bool := false
  creator : Option String := none
  reviewer : Option String := none
  email : Option String := none
  admin : Option String := none
  comment : Option String := none
  reason : Option String := none
  arbitrate_decision : Option String := none
  prior_consensus_status : Option String := none
  created_at : TsVal := .missing
  timestamp : TsVal := .missing
deriving DecidableEq, Repr

/-- `_ts` (aggregation.py, also duplicated in arbitration.py): prefer
`created_at`, fall back to `timestamp`, default to `0`. -/
def ts (r : Rec) : Int :=
  match tsField r.created_at with
  | some v => v
  | none =>
    match tsField r.timestamp with
    | some v => v
    | none => 0

/-- `_norm_action`: `None` becomes `""`, otherwise `str(v).strip().lower()`. -/
def norm_action (act : Option String) : String :=
  match act with
  | none => ""
  | some s => pyLower (pyStrip s)

/-- `make_assertion_id` (backend/domain/assertions.py): the five content
fields joined by `"|"`. -/
def make_assertion_id (subject subject_type predicate object_ object_type : String) : String :=
  subject ++ "|" ++ subject_type ++ "|" ++ predicate ++ "|" ++ object_ ++ "|" ++ object_type

/-- `_content_key`: `make_assertion_id` over the record's content fields,
empty string standing for a missing field. -/
def content_key (r : Rec) : String :=
  make_assertion_id (r.subject.getD "") (r.subject_type.getD "") (r.predicate.getD "")
    (r.object.getD "") (r.object_type.getD "")

/-- `any(log.get(k) for k in ("subject", "predicate", "object"))`. -/
def has_content (r : Rec) : Bool :=
  (r.subject.getD "" != "") || (r.predicate.getD "" != "") || (r.object.getD "" != "")

/-- The per-record key resolution of `_group_logs_for_pmid_ordered`
(aggregation.py lines 164-189), given the running `last_add_key`. -/
def resolve_key (last_add_key : Option String) (r : Rec) : String :=
  let action := norm_action r.action
  let ch := pyStrip (r.content_hash.getD "")
  let rid := pyStrip (r.related_to.getD "")
  let aid := pyStrip (r.assertion_id.getD "")
  if ch ≠ "" then ch
  else if rid ≠ "" then rid
  else if aid ≠ "" then aid
  else if action = "add" then content_key r
  else if has_content r then content_key r
  else
    match last_add_key with
    | some k => if k ≠ "" then k else content_key r
    | none => content_key r

/-- The grouping accumulator: an association list keyed by lifecycle key,
keys in first-insertion order (Python `defaultdict` iteration order). -/
abbrev Buckets := List (String × List Rec)

/-- `agg[key].append(log)`: append to the bucket of `key`, creating the
bucket at the end when absent. -/
def addToBucket : Buckets → String → Rec → Buckets
  | [], k, r => [(k, [r])]
  | (k', rs) :: rest, k, r =>
    if k' = k then (k', rs ++ [r]) :: rest else (k', rs) :: addToBucket rest k r

/-- One iteration of the grouping loop: resolve the key, append the record,
and update `last_add_key` for true non-empty-keyed `add` actions. -/
def group_step (st : Buckets × Option String) (r : Rec) : Buckets × Option String :=
  let key := resolve_key st.2 r
  let agg := addToBucket st.1 key r
  let last := if norm_action r.action = "add" ∧ key ≠ "" then some key else st.2
  (agg, last)

/-- Stable insertion of a record into a ts-ascending list: placed before the
first element of greater-or-equal timestamp. -/
def insertTs (r : Rec) : List Rec → List Rec
  | [] => [r]
  | x :: xs => if ts r ≤ ts x then r :: x :: xs else x :: insertTs r xs

/-- Stable ascending sort by `ts`, extensionally equal to Python's stable
`filt.sort(key=_ts)`. -/
def sortByTs : List Rec → List Rec
  | [] => []
  | x :: xs => insertTs x (sortByTs xs)

/-- `_group_logs_for_pmid_ordered`: filter the records of one pmid, sort them
ascending by time, then run the single forward grouping pass. -/
def group_logs_for_pmid_ordered (pmid : String) (logs : List Rec) : Buckets :=
  let filt := logs.filter (fun l => pyStr l.pmid == pmid)
  let sorted := sortByTs filt
  (sorted.foldl group_step ([], none)).1

/-- `ConsensusResult` (aggregation.py). -/
inductive ConsensusResult where
  | consensus
  | conflict
  | uncertain
  | pending
  | arbitrated
deriving DecidableEq, Repr

/-- The `.value` string of a `ConsensusResult`. -/
def ConsensusResult.val : ConsensusResult → String
  | .consensus => "consensus"
  | .conflict => "conflict"
  | .uncertain => "uncertain"
  | .pending => "pending"
  | .arbitrated => "arbitrated"

/-- The `allowed` action set of `consensus_decision`. -/
def allowedActions : List String := ["accept", "modify", "reject", "uncertain"]

/-- `review_actions`: normalized actions of the records, restricted to the
allowed review actions. -/
def review_actions (logs : List Rec) : List String :=
  (logs.map (fun l => norm_action l.action)).filter (fun a => decide (a ∈ allowedActions))

/-- The actor charged with an accept/modify record:
`(l.get("creator") or l.get("reviewer") or "").strip().lower()`. -/
def support_actor (r : Rec) : String :=
  pyLower (pyStrip (pyOr r.creator (pyOr r.reviewer "")))

/-- Add an element to a duplicate-free list, modelling `set.add`. -/
def insertDistinct (s : List String) (x : String) : List String :=
  if x ∈ s then s else s ++ [x]

/-- One iteration of the `support_reviewers` loop: add the actor of an
accept/modify record to the set when it is non-empty. -/
def support_step (s : List String) (l : Rec) : List String :=
  if norm_action l.action = "accept" ∨ norm_action l.action = "modify" then
    let who := support_actor l
    if who ≠ "" then insertDistinct s who else s
  else s

/-- `support_reviewers`: the distinct non-empty actors of accept/modify
records (a Python `set`, here a duplicate-free list). -/
def support_reviewers (logs : List Rec) : List String :=
  logs.foldl support_step []

/-- The content tuple compared by the `require_exact_content_match` branch. -/
structure ModifyContent where
  subject : Option String
  subject_type : Option String
  predicate : Option String
  object : Option String
  object_type : Option String
  negation : Bool
deriving DecidableEq, Repr

/-- Project a record onto the tuple compared between `modify` records. -/
def modify_content (r : Rec) : ModifyContent :=
  ⟨r.subject, r.subject_type, r.predicate, r.object, r.object_type, r.negation⟩

/-- `consensus_decision` (aggregation.py lines 206-270).  The two keyword
parameters are explicit; the Python defaults are `false` and `2`. -/
def consensus_decision (logs : List Rec) (require_exact_content_match : Bool)
    (min_reviewers_for_consensus : Int) : ConsensusResult :=
  if logs = [] then .pending
  else if logs.any (fun l => norm_action l.action == "arbitrate") then .arbitrated
  else
    let ras := review_actions logs
    if ras = [] then .pending
    else if ras.count "reject" > 0 ∨ ras.count "uncertain" > 0 then
      if ras.count "uncertain" = ras.length ∧ ras.count "reject" = 0 then .uncertain
      else .conflict
    else
      if ((support_reviewers logs).length : Int) ≥ min_reviewers_for_consensus then
        if require_exact_content_match then
          let modify_logs := logs.filter (fun l => norm_action l.action == "modify")
          if modify_logs.length > 1 then
            if ((modify_logs.map modify_content).dedup).length > 1 then .conflict
            else .consensus
          else .consensus
        else .consensus
      else .pending

/-! ## Arbitration service (backend/services/arbitration.py) -/

/-- Outcome of an arbitration operation: a returned record, or an
`ArbitrationError` carrying its message. -/
inductive ArbOutcome where
  | ok (record : Rec)
  | error (msg : String)
deriving DecidableEq, Repr

/-- The `assertion_key`s of `find_assertion_conflicts(pmid)`: lifecycle keys
whose group currently decides to CONFLICT (default parameters). -/
def find_assertion_conflict_keys (pmid : String) (raw : List Rec) : List String :=
  ((group_logs_for_pmid_ordered pmid raw).filter
      (fun b => consensus_decision b.2 false 2 == ConsensusResult.conflict)).map (fun b => b.1)

/-- `groups.get(assertion_key, [])` over the grouping of all raw logs. -/
def group_lookup (pmid assertion_key : String) (raw : List Rec) : List Rec :=
  ((group_logs_for_pmid_ordered pmid raw).lookup assertion_key).getD []

/-- Python `max(logs, key=_ts)` wrapped in the empty check: the first record
of maximal timestamp, `none` on the empty list. -/
def max_by_ts (logs : List Rec) : Option Rec :=
  logs.foldl
    (fun best x =>
      match best with
      | none => some x
      | some b => if ts x > ts b then some x else some b)
    none

/-- `get_latest_arbitration`: the most recent `arbitrate` record of the
lifecycle, or `none`. -/
def get_latest_arbitration (assertion_key pmid : String) (raw : List Rec) : Option Rec :=
  let logs := group_lookup pmid assertion_key raw
  let arb_logs := logs.filter (fun l => norm_action l.action == "arbitrate")
  max_by_ts arb_logs

/-- The decisions accepted by `set_arbitration_result`. -/
def valid_decisions : List String := ["accept", "modify", "reject", "uncertain"]

/-- The `arbitrate` record appended by `set_arbitration_result`
(`log_review_action` sanitization sets `timestamp` to `created_at`). -/
def arbitrate_record (pmid assertion_key normalized admin_email comment : String)
    (prior_status : String) (now : Int) : Rec :=
  { action := some "arbitrate"
    arbitrate_decision := some normalized
    assertion_id := some assertion_key
    assertion_key := some assertion_key
    pmid := some pmid
    admin := some (pyLower admin_email)
    comment := some comment
    prior_consensus_status := some prior_status
    created_at := .num now
    timestamp := .num now }

/-- `set_arbitration_result` over an explicit log state (the JSONL store is
the list; `log_review_action` appends).  Returns the outcome and the
resulting log. -/
def set_arbitration_result (raw : List Rec) (pmid assertion_key decision admin_email comment : String)
    (overwrite : Bool) (now : Int) : ArbOutcome × List Rec :=
  let normalized := norm_action (some decision)
  if ¬ (normalized ∈ valid_decisions) then
    (.error ("Unsupported arbitration decision: " ++ decision), raw)
  else if ¬ overwrite ∧ ¬ (assertion_key ∈ find_assertion_conflict_keys pmid raw) then
    match get_latest_arbitration assertion_key pmid raw with
    | some latest =>
      if norm_action latest.arbitrate_decision = normalized then (.ok latest, raw)
      else
        (.error ("Assertion " ++ assertion_key ++ " for PMID " ++ pmid ++
          " is not in conflict and overwrite is False."), raw)
    | none =>
      (.error ("Assertion " ++ assertion_key ++ " for PMID " ++ pmid ++
        " is not in conflict and overwrite is False."), raw)
  else
    let prior_logs := group_lookup pmid assertion_key raw
    let prior_status :=
      if prior_logs ≠ [] then (consensus_decision prior_logs false 2).val
      else ConsensusResult.pending.val
    let record := arbitrate_record pmid assertion_key normalized admin_email comment prior_status now
    (.ok record, raw ++ [record])

/-- The `arbitrate_undo` record appended by `undo_arbitration` (the nested
`original_arbitration` payload is omitted, see `Rec`). -/
def undo_record (assertion_key pmid admin_email reason : String) (now : Int) : Rec :=
  { action := some "arbitrate_undo"
    assertion_id := some assertion_key
    assertion_key := some assertion_key
    pmid := some pmid
    admin := some (pyLower admin_email)
    reason := some reason
    created_at := .num now
    timestamp := .num now }

/-- `undo_arbitration`: fails when no prior `arbitrate` record exists,
otherwise appends a compensating `arbitrate_undo` record. -/
def undo_arbitration (raw : List Rec) (assertion_key pmid admin_email reason : String)
    (now : Int) : ArbOutcome × List Rec :=
  match get_latest_arbitration assertion_key pmid raw with
  | none => (.error "No existing arbitration to undo.", raw)
  | some _ =>
    let record := undo_record assertion_key pmid admin_email reason now
    (.ok record, raw ++ [record])

/-! ## Assignment & locking manager (backend/services/assignment.py) -/

/-- One entry of a lock's `history` list. -/
structure HistEntry where
  email : String
  assigned_at : Int
  released_at : Option Int
deriving DecidableEq, Repr

/-- One value of the `_LOCKS` table:
`{"reviewers": {email: ts}, "assigned_at": t, "history": [...]}`.
`reviewers` is a dict, embedded as an association list in insertion order. -/
structure LockRec where
  reviewers : List (String × Int)
  assigned_at : Int
  history : List HistEntry
deriving DecidableEq, Repr

/-- The `_LOCKS` table: pmid → lock record, in insertion order. -/
abbrev Locks := List (String × LockRec)

/-- The two configuration constants read by the manager
(`_DEFAULT_TIMEOUT_SECONDS`, `_MAX_CONCURRENT_REVIEWERS`). -/
structure AssignConfig where
  timeout_seconds : Int
  max_concurrent_reviewers : Nat
deriving DecidableEq, Repr

/-- The config.py defaults: `MAX_REVIEWERS_PER_ABSTRACT = 2`. -/
def MAX_REVIEWERS_PER_ABSTRACT : Nat := 2

/-- The config.py defaults: `REVIEW_TIMEOUT_MINUTES = 30`, i.e. 1800 s. -/
def DEFAULT_TIMEOUT_SECONDS : Int := 1800

/-- The default `AssignConfig`. -/
def defaultConfig : AssignConfig :=
  { timeout_seconds := DEFAULT_TIMEOUT_SECONDS
    max_concurrent_reviewers := MAX_REVIEWERS_PER_ABSTRACT }

/-- `reviewers[email] = now`: replace the heartbeat of an existing holder, or
append a new holder (dict insertion order). -/
def set_heartbeat (rs : List (String × Int)) (email : String) (now : Int) : List (String × Int) :=
  if email ∈ rs.map (fun p => p.1) then
    rs.map (fun p => if p.1 = email then (p.1, now) else p)
  else rs ++ [(email, now)]

/-- Close the first open history entry of `email` (the loop of
`_cleanup_expired_locked`). -/
def close_first_open (history : List HistEntry) (email : String) (t : Int) : List HistEntry :=
  match history with
  | [] => []
  | e :: rest =>
    if e.email = email ∧ e.released_at = none then { e with released_at := some t } :: rest
    else e :: close_first_open rest email t

/-- Close the last open history entry of `email` (the `reversed(history)`
loop of `release_assignment`). -/
def close_last_open (history : List HistEntry) (email : String) (t : Int) : List HistEntry :=
  (close_first_open history.reverse email t).reverse

/-- The inner loop of `_cleanup_expired_locked` over one lock's reviewers:
drop every holder whose heartbeat is stale (`now - ts > timeout`), closing
its history entry. -/
def expire_reviewers (cfg : AssignConfig) (t : Int) :
    List (String × Int) → List HistEntry → List (String × Int) × List HistEntry
  | [], h => ([], h)
  | (e, hb) :: rest, h =>
    if t - hb > cfg.timeout_seconds then
      expire_reviewers cfg t rest (close_first_open h e t)
    else
      let (rs, h') := expire_reviewers cfg t rest h
      ((e, hb) :: rs, h')

/-- `_cleanup_expired_locked(current_time)`: expire stale holders of every
lock, then drop locks whose reviewer set became empty. -/
def cleanup_expired (cfg : AssignConfig) (t : Int) (locks : Locks) : Locks :=
  (locks.map (fun p =>
      let rh := expire_reviewers cfg t p.2.reviewers p.2.history
      (p.1, { p.2 with reviewers := rh.1, history := rh.2 }))).filter
    (fun p => !p.2.reviewers.isEmpty)

/-- Replace the (first) lock entry of `pmid`. -/
def replace_lock : Locks → String → LockRec → Locks
  | [], _, _ => []
  | (k, l) :: rest, pmid, newl =>
    if k = pmid then (k, newl) :: rest else (k, l) :: replace_lock rest pmid newl

/-- Drop the lock entry of `pmid` (`_LOCKS.pop(pmid, None)`). -/
def remove_lock (locks : Locks) (pmid : String) : Locks :=
  locks.filter (fun p => p.1 != pmid)

/-- A fresh lock record for a single holder. -/
def new_lock (email : String) (now : Int) : LockRec :=
  { reviewers := [(email, now)]
    assigned_at := now
    history := [{ email := email, assigned_at := now, released_at := none }] }

/-- Refresh / create the heartbeat of `email` on an existing lock (the body
of `touch_assignment` after `setdefault`). -/
def touch_lock (lock : LockRec) (email : String) (now : Int) : LockRec :=
  let created := ¬ (email ∈ lock.reviewers.map (fun p => p.1))
  let rs := set_heartbeat lock.reviewers email now
  let h :=
    if created then lock.history ++ [{ email := email, assigned_at := now, released_at := none }]
    else lock.history
  { lock with reviewers := rs, history := h }

/-- `touch_assignment(email, pmid)`: returns whether a heartbeat was created
or refreshed, together with the new lock table.  Note: no concurrency-cap
check appears anywhere on this path. -/
def touch_assignment (email0 pmid : String) (now : Int) (locks : Locks) : Bool × Locks :=
  let email := pyLower (pyStrip email0)
  if email = "" ∨ pmid = "" then (false, locks)
  else
    match locks.lookup pmid with
    | some lock => (true, replace_lock locks pmid (touch_lock lock email now))
    | none => (true, locks ++ [(pmid, touch_lock ⟨[], now, []⟩ email now)])

/-- `release_assignment(email, pmid)`: remove the holder, closing its last
open history entry; drop the lock when its reviewer set becomes empty. -/
def release_assignment (email0 pmid : String) (now : Int) (locks : Locks) : Bool × Locks :=
  let email := pyStrip (pyLower email0)
  if email = "" ∨ pmid = "" then (false, locks)
  else
    match locks.lookup pmid with
    | none => (false, locks)
    | some lock =>
      if ¬ (email ∈ lock.reviewers.map (fun p => p.1)) then (false, locks)
      else
        let h := close_last_open lock.history email now
        let rs := lock.reviewers.filter (fun p => p.1 != email)
        if rs = [] then (true, remove_lock locks pmid)
        else (true, replace_lock locks pmid { lock with reviewers := rs, history := h })

/-- `who_has_abstract(pmid)`: the active holders with their heartbeat
times (the `_HolderList` wrapper only changes `in`, not the content). -/
def who_has_abstract (pmid : String) (locks : Locks) : List (String × Int) :=
  match locks.lookup pmid with
  | none => []
  | some lock => lock.reviewers

/-- The pmid charged to a raw log line when building
`hist_reviewers_by_pmid`:
`str(log.get("pmid") or log.get("abstract_id") or log.get("abs_id") or "").strip()`. -/
def hist_pid (l : Rec) : String :=
  pyStrip (pyOr l.pmid (pyOr l.abstract_id (pyOr l.abs_id "")))

/-- The actor charged to a raw log line when building
`hist_reviewers_by_pmid`:
`(log.get("creator") or log.get("reviewer") or log.get("email") or "").strip().lower()`. -/
def hist_actor (l : Rec) : String :=
  pyLower (pyStrip (pyOr l.creator (pyOr l.reviewer (pyOr l.email ""))))

/-- `hist_reviewers_by_pmid.get(pmid, set())` as a duplicate-free list: the
distinct actors that ever acted on `pmid` according to the raw logs. -/
def hist_reviewers (raw : List Rec) (pmid : String) : List String :=
  (raw.filterMap (fun l =>
      let pid := hist_pid l
      let actor := hist_actor l
      if pid = pmid ∧ pid ≠ "" ∧ actor ≠ "" then some actor else none)).dedup

/-- The `for pmid_existing, lock in _LOCKS.items()` scan of
`assign_abstract_to_reviewer`: return the first lock held by `email`,
refreshing its heartbeat. -/
def refresh_holding : Locks → String → Int → Option String × Locks
  | [], _, _ => (none, [])
  | (k, l) :: rest, email, now =>
    if email ∈ l.reviewers.map (fun p => p.1) then
      (some k, (k, { l with reviewers := set_heartbeat l.reviewers email now }) :: rest)
    else
      let r := refresh_holding rest email now
      (r.1, (k, l) :: r.2)

/-- The `prefer_current` branch of `assign_abstract_to_reviewer`
(lines 235-266; the cross-process db check is constantly false). -/
def prefer_current_step (cfg : AssignConfig) (email : String) (hist : String → List String)
    (now : Int) (pmid_cur : String) (locks : Locks) : Option String × Locks :=
  if email ∈ hist pmid_cur ∧ locks.lookup pmid_cur = none then (none, locks)
  else
    match locks.lookup pmid_cur with
    | some lock =>
      if email ∈ lock.reviewers.map (fun p => p.1) then
        (some pmid_cur, replace_lock locks pmid_cur
          { lock with reviewers := set_heartbeat lock.reviewers email now })
      else if lock.reviewers.length < cfg.max_concurrent_reviewers then
        (some pmid_cur, replace_lock locks pmid_cur
          { lock with reviewers := lock.reviewers ++ [(email, now)],
                      history := lock.history ++
                        [{ email := email, assigned_at := now, released_at := none }] })
      else (none, locks)
    | none =>
      if ¬ (email ∈ hist pmid_cur) then
        (some pmid_cur, locks ++ [(pmid_cur, new_lock email now)])
      else (none, locks)

/-- The candidate-pool scan of `assign_abstract_to_reviewer` (lines 273-304):
either the three pools `(singles, empties, partials)` with the (unchanged)
lock table, or an early refresh-return. -/
def build_pools (cfg : AssignConfig) (email : String) (hist : String → List String) (now : Int)
    (abstracts : List (Option String)) (locks : Locks)
    (singles empties partials : List String) :
    (List String × List String × List String × Locks) ⊕ (String × Locks) :=
  match abstracts with
  | [] => .inl (singles, empties, partials, locks)
  | a :: rest =>
    let pmid := pyOr a ""
    if pmid = "" then build_pools cfg email hist now rest locks singles empties partials
    else if email ∈ hist pmid then build_pools cfg email hist now rest locks singles empties partials
    else
      match locks.lookup pmid with
      | none =>
        if (hist pmid).length = 1 then
          build_pools cfg email hist now rest locks (singles ++ [pmid]) empties partials
        else build_pools cfg email hist now rest locks singles (empties ++ [pmid]) partials
      | some lock =>
        if email ∈ lock.reviewers.map (fun p => p.1) then
          (.inr (pmid, replace_lock locks pmid
            { lock with reviewers := set_heartbeat lock.reviewers email now }))
        else if lock.reviewers.length < cfg.max_concurrent_reviewers then
          if (hist pmid).length = 1 then
            build_pools cfg email hist now rest locks (singles ++ [pmid]) empties partials
          else build_pools cfg email hist now rest locks singles empties (partials ++ [pmid])
        else build_pools cfg email hist now rest locks singles empties partials

/-- The acquisition loop over `selection_order` (lines 319-342). -/
def try_acquire (cfg : AssignConfig) (email : String) (now : Int) :
    List String → Locks → Option String × Locks
  | [], locks => (none, locks)
  | pmid :: rest, locks =>
    match locks.lookup pmid with
    | none => (some pmid, locks ++ [(pmid, new_lock email now)])
    | some lock =>
      if email ∈ lock.reviewers.map (fun p => p.1) then
        (some pmid, replace_lock locks pmid
          { lock with reviewers := set_heartbeat lock.reviewers email now })
      else if lock.reviewers.length < cfg.max_concurrent_reviewers then
        (some pmid, replace_lock locks pmid
          { lock with reviewers := lock.reviewers ++ [(email, now)],
                      history := lock.history ++
                        [{ email := email, assigned_at := now, released_at := none }] })
      else try_acquire cfg email now rest locks

/-- The final fallback loop (lines 344-372).  It still skips every abstract
the reviewer has historically acted on. -/
def fallback_scan (cfg : AssignConfig) (email : String) (hist : String → List String) (now : Int) :
    List (Option String) → Locks → Option String × Locks
  | [], locks => (none, locks)
  | a :: rest, locks =>
    let pmid := pyOr a ""
    if pmid = "" then fallback_scan cfg email hist now rest locks
    else if email ∈ hist pmid then fallback_scan cfg email hist now rest locks
    else
      match locks.lookup pmid with
      | none => (some pmid, locks ++ [(pmid, new_lock email now)])
      | some lock =>
        if email ∈ lock.reviewers.map (fun p => p.1) then
          (some pmid, replace_lock locks pmid
            { lock with reviewers := set_heartbeat lock.reviewers email now })
        else if lock.reviewers.length < cfg.max_concurrent_reviewers then
          (some pmid, replace_lock locks pmid
            { lock with reviewers := lock.reviewers ++ [(email, now)],
                        history := lock.history ++
                          [{ email := email, assigned_at := now, released_at := none }] })
        else fallback_scan cfg email hist now rest locks

/-- `assign_abstract_to_reviewer`.  The two uses of `random` are oracle
parameters: `single_priority` is `random.random() < 0.5` and `shuffle` is
the permutation applied by `random.shuffle`; the theorems hold for every
oracle.  `abstracts` carries the `pmid` field of each `load_abstracts()`
row. -/
def assign_abstract_to_reviewer (cfg : AssignConfig) (abstracts : List (Option String))
    (raw_logs : List Rec) (single_priority : Bool) (shuffle : List String → List String)
    (email0 : String) (prefer_current : Option String) (now : Int) (locks0 : Locks) :
    Option String × Locks :=
  let email := pyStrip (pyLower email0)
  if email = "" then (none, locks0)
  else
    let locks1 := cleanup_expired cfg now locks0
    match refresh_holding locks1 email now with
    | (some pmid, locks2) => (some pmid, locks2)
    | (none, locks2) =>
      let hist := hist_reviewers raw_logs
      let step1 : Option String × Locks :=
        match prefer_current with
        | some pc => prefer_current_step cfg email hist now pc locks2
        | none => (none, locks2)
      match step1 with
      | (some pmid, locks3) => (some pmid, locks3)
      | (none, locks3) =>
        match build_pools cfg email hist now abstracts locks3 [] [] [] with
        | .inr (pmid, locks4) => (some pmid, locks4)
        | .inl (singles, empties, partials, locks4) =>
          let selection_order :=
            if single_priority ∧ singles ≠ [] then singles
            else empties ++ singles ++ partials
          let order := shuffle selection_order
          match try_acquire cfg email now order locks4 with
          | (some pmid, locks5) => (some pmid, locks5)
          | (none, locks5) => fallback_scan cfg email hist now abstracts locks5

/-! ## Derived notions used in statements -/

/-- All records of a bucket list, in bucket order. -/
def join_buckets (bs : Buckets) : List Rec := (bs.map (fun b => b.2)).flatten

/-- The reviewer-concurrency invariant: no lock holds more reviewers than the
configured cap. -/
abbrev cap_invariant (maxR : Nat) (locks : Locks) : Prop :=
  ∀ p ∈ locks, p.2.reviewers.length ≤ maxR

/-! Concrete records used by witnesses and counterexamples. -/

/-- An `add` proposing content `(a, r, b)` on document `p` at time 1. -/
def recAdd1 : Rec :=
  { action := some "add", pmid := some "p", subject := some "a", predicate := some "r",
    object := some "b", creator := some "r0@x", created_at := .num 1 }

/-- An identifier-less `accept` by `r1@x` on document `p` at time 2. -/
def recAccept1 : Rec :=
  { action := some "accept", pmid := some "p", creator := some "r1@x", created_at := .num 2 }

/-- An identifier-less `accept` by `r2@x` on document `p` at time 3. -/
def recAccept2 : Rec :=
  { action := some "accept", pmid := some "p", creator := some "r2@x", created_at := .num 3 }

/-- A second `accept` by the same actor as `recAccept1`, in different case. -/
def recAcceptDup : Rec :=
  { action := some "accept", pmid := some "p", creator := some "R1@X ", created_at := .num 3 }

/-- An identifier-less `reject` by `r3@x` on document `p` at time 4. -/
def recReject1 : Rec :=
  { action := some "reject", pmid := some "p", reviewer := some "r3@x", created_at := .num 4 }

/-- A `reject` that carries its own content fields (subject `zz`) but no
content hash, back-reference or assertion id. -/
def recRejectContent : Rec :=
  { action := some "reject", pmid := some "p", subject := some "zz",
    reviewer := some "r3@x", created_at := .num 7 }

/-- An `arbitrate` record for lifecycle key `k` on document `p` at time 5. -/
def recArb1 : Rec :=
  { action := some "arbitrate", pmid := some "p", assertion_id := some "k",
    arbitrate_decision := some "accept", admin := some "adm@x", created_at := .num 5 }

/-- The compensating `arbitrate_undo` for `recArb1`, at time 6. -/
def recUndo1 : Rec :=
  { action := some "arbitrate_undo", pmid := some "p", assertion_id := some "k",
    admin := some "adm@x", created_at := .num 6 }

/-- An `accept` record with no creator and no reviewer. -/
def recNoActor : Rec :=
  { action := some "accept", pmid := some "p", created_at := .num 1 }

/-- A record with an action string unknown to the consensus machine. -/
def recUnknown : Rec :=
  { action := some "frobnicate", pmid := some "p", creator := some "r9@x",
    created_at := .num 9 }

/-- A record whose `created_at` is an unparseable string and whose
`timestamp` is absent. -/
def recBadTs : Rec :=
  { action := some "accept", pmid := some "p", creator := some "r1@x",
    created_at := .strBad, timestamp := .missing }

/-- A historical review of document `P1` by `r1@x`. -/
def recHistP1 : Rec :=
  { action := some "accept", pmid := some "P1", creator := some "r1@x",
    created_at := .num 1 }

/-- The lock table carried by either outcome of `build_pools`. -/
def pools_locks :
    (List String × List String × List String × Locks) ⊕ (String × Locks) → Locks
  | .inl x => x.2.2.2
  | .inr x => x.2

end ManualReview

namespace ManualReview

/-! ## Helper lemmas: stable sort by timestamp -/

theorem mem_insertTs {y r : Rec} {l : List Rec} (h : y ∈ insertTs r l) : y = r ∨ y ∈ l := by
  induction l with
  | nil => simpa [insertTs] using h
  | cons x xs ih =>
    by_cases hc : ts r ≤ ts x
    · simpa [insertTs, hc] using h
    · simp only [insertTs, if_neg hc, List.mem_cons] at h
      rcases h with h | h
      · exact Or.inr (by simp [h])
      · rcases ih h with h' | h'
        · exact Or.inl h'
        · exact Or.inr (List.mem_cons_of_mem _ h')

theorem perm_insertTs (r : Rec) (l : List Rec) : (insertTs r l).Perm (r :: l) := by
  induction l with
  | nil => simp [insertTs]
  | cons x xs ih =>
    by_cases hc : ts r ≤ ts x
    · simp [insertTs, hc]
    · simp only [insertTs, if_neg hc]
      exact (ih.cons x).trans (List.Perm.swap r x xs)

theorem perm_sortByTs (l : List Rec) : (sortByTs l).Perm l := by
  induction l with
  | nil => simp [sortByTs]
  | cons x xs ih => exact (perm_insertTs x (sortByTs xs)).trans (ih.cons x)

theorem sorted_insertTs {r : Rec} {l : List Rec}
    (h : l.Pairwise (fun a c => ts a ≤ ts c)) :
    (insertTs r l).Pairwise (fun a c => ts a ≤ ts c) := by
  induction l with
  | nil => simp [insertTs]
  | cons x xs ih =>
    rcases List.pairwise_cons.mp h with ⟨hx, hxs⟩
    by_cases hc : ts r ≤ ts x
    · rw [insertTs, if_pos hc]
      refine List.pairwise_cons.mpr ⟨?_, h⟩
      intro y hy
      rcases List.mem_cons.mp hy with hy | hy
      · subst hy; exact hc
      · exact le_trans hc (hx y hy)
    · rw [insertTs, if_neg hc]
      refine List.pairwise_cons.mpr ⟨?_, ih hxs⟩
      intro y hy
      rcases mem_insertTs hy with hy | hy
      · subst hy; omega
      · exact hx y hy

theorem sorted_sortByTs (l : List Rec) :
    (sortByTs l).Pairwise (fun a c => ts a ≤ ts c) := by
  induction l with
  | nil => simp [sortByTs]
  | cons x xs ih => exact sorted_insertTs ih

/-! ## Helper lemmas: bucket bookkeeping -/

theorem join_addToBucket (bs : Buckets) (k : String) (r : Rec) :
    (join_buckets (addToBucket bs k r)).Perm (join_buckets bs ++ [r]) := by
  induction bs with
  | nil => simp [addToBucket, join_buckets]
  | cons b rest ih =>
    rcases b with ⟨k', rs⟩
    by_cases hk : k' = k
    · simp only [addToBucket, if_pos hk, join_buckets, List.map_cons, List.flatten_cons,
        List.append_assoc]
      exact List.Perm.append_left rs (List.perm_append_singleton r _).symm
    · simp only [addToBucket, if_neg hk, join_buckets, List.map_cons, List.flatten_cons]
      have := (ih.append_left rs)
      simpa [join_buckets, List.append_assoc] using this

theorem join_foldl_group_step (l : List Rec) (st : Buckets × Option String) :
    (join_buckets (l.foldl group_step st).1).Perm (join_buckets st.1 ++ l) := by
  induction l generalizing st with
  | nil => simp
  | cons r rest ih =>
    have h1 := ih (group_step st r)
    have h2 : (join_buckets (group_step st r).1 ++ rest).Perm
        ((join_buckets st.1 ++ [r]) ++ rest) :=
      (join_addToBucket st.1 (resolve_key st.2 r) r).append_right rest
    exact h1.trans (h2.trans (List.Perm.of_eq (by simp)))

theorem addToBucket_sublist {bs : Buckets} {pref : List Rec} {k : String} {r : Rec}
    (h : ∀ b ∈ bs, b.2.Sublist pref) :
    ∀ b ∈ addToBucket bs k r, b.2.Sublist (pref ++ [r]) := by
  induction bs with
  | nil =>
    intro b hb
    simp only [addToBucket, List.mem_singleton] at hb
    subst hb
    simp only []
    exact List.sublist_append_right pref [r]
  | cons b0 rest ih =>
    rcases b0 with ⟨k', rs⟩
    intro b hb
    by_cases hk : k' = k
    · simp only [addToBucket, if_pos hk, List.mem_cons] at hb
      rcases hb with hb | hb
      · subst hb
        exact (h (k', rs) (by simp)).append (List.Sublist.refl [r])
      · exact ((h b (List.mem_cons_of_mem _ hb))).trans (List.sublist_append_left pref [r])
    · simp only [addToBucket, if_neg hk, List.mem_cons] at hb
      rcases hb with hb | hb
      · subst hb
        exact ((h (k', rs) (by simp))).trans (List.sublist_append_left pref [r])
      · exact ih (fun b' hb' => h b' (List.mem_cons_of_mem _ hb')) b hb

theorem foldl_group_step_sublist (l : List Rec) (st : Buckets × Option String)
    (pref : List Rec) (h : ∀ b ∈ st.1, b.2.Sublist pref) :
    ∀ b ∈ (l.foldl group_step st).1, b.2.Sublist (pref ++ l) := by
  induction l generalizing st pref with
  | nil => simp only [List.foldl_nil, List.append_nil]; exact h
  | cons r rest ih =>
    intro b hb
    have step : ∀ b ∈ (group_step st r).1, b.2.Sublist (pref ++ [r]) :=
      addToBucket_sublist h
    have := ih (group_step st r) (pref ++ [r]) step b hb
    simpa [List.append_assoc] using this

/-! ## Claim C9 -/

/-- C9: lifecycle grouping partitions its input.  The concatenation of all
buckets is a permutation of the records whose stringified `pmid` equals the
requested document id (so no matching record is dropped or duplicated), the
bucket sizes sum to the number of matching records, and every bucket is in
ascending timestamp order. -/
theorem C9_grouping_partitions (pmid : String) (logs : List Rec) :
    (join_buckets (group_logs_for_pmid_ordered pmid logs)).Perm
        (logs.filter (fun l => pyStr l.pmid == pmid))
    ∧ ((group_logs_for_pmid_ordered pmid logs).map (fun b => b.2.length)).sum
        = (logs.filter (fun l => pyStr l.pmid == pmid)).length
    ∧ ∀ b ∈ group_logs_for_pmid_ordered pmid logs,
        b.2.Pairwise (fun a c => ts a ≤ ts c) := by
  set filt := logs.filter (fun l => pyStr l.pmid == pmid) with hfilt
  have hg : group_logs_for_pmid_ordered pmid logs
      = ((sortByTs filt).foldl group_step ([], none)).1 := rfl
  have h1 : (join_buckets ((sortByTs filt).foldl group_step ([], none)).1).Perm
      (sortByTs filt) := by
    simpa [join_buckets] using join_foldl_group_step (sortByTs filt) ([], none)
  have hperm : (join_buckets (group_logs_for_pmid_ordered pmid logs)).Perm filt := by
    rw [hg]; exact h1.trans (perm_sortByTs filt)
  refine ⟨hperm, ?_, ?_⟩
  · have hlen : (join_buckets (group_logs_for_pmid_ordered pmid logs)).length
        = ((group_logs_for_pmid_ordered pmid logs).map (fun b => b.2.length)).sum := by
      simp only [join_buckets, List.length_flatten, List.map_map]
      rfl
    rw [← hlen, hperm.length_eq]
  · intro b hb
    have hsub : b.2.Sublist (sortByTs filt) := by
      have := foldl_group_step_sublist (sortByTs filt) ([], none) []
        (by intro b hb; simp at hb) b (hg ▸ hb)
      simpa using this
    exact List.Pairwise.sublist hsub (sorted_sortByTs filt)

/-- Witness for C9: the ascending-order conclusion applied to the concrete
lifecycle of `recAccept1` and `recReject1` on document `p`. -/
theorem C9_grouping_partitions_witness :
    ([recAccept1, recReject1] : List Rec).Pairwise (fun a c => ts a ≤ ts c) :=
  (C9_grouping_partitions "p" [recAccept1, recReject1]).2.2
    ("||||", [recAccept1, recReject1]) (by decide)

/-! ## Helper lemmas: consensus components -/

theorem support_step_skip {l : Rec} (s : List String)
    (h : ¬ (norm_action l.action = "accept" ∨ norm_action l.action = "modify")) :
    support_step s l = s := by
  simp [support_step, h]

theorem support_step_empty_actor {l : Rec} (s : List String) (h : support_actor l = "") :
    support_step s l = s := by
  unfold support_step
  split
  · simp [h]
  · rfl

theorem foldl_support_step_id {logs : List Rec}
    (h : ∀ l ∈ logs, support_actor l = "") (s : List String) :
    logs.foldl support_step s = s := by
  induction logs generalizing s with
  | nil => rfl
  | cons r rest ih =>
    rw [List.foldl_cons, support_step_empty_actor s (h r (by simp))]
    exact ih (fun l hl => h l (List.mem_cons_of_mem _ hl)) s

theorem mem_insertDistinct_self (s : List String) (x : String) : x ∈ insertDistinct s x := by
  unfold insertDistinct
  split
  · assumption
  · simp

theorem insertDistinct_of_mem {s : List String} {x : String} (h : x ∈ s) :
    insertDistinct s x = s := by
  simp [insertDistinct, h]

theorem norm_arbitrate_beq_false {l : Rec} (h : norm_action l.action ≠ "arbitrate") :
    (norm_action l.action == "arbitrate") = false := by
  simpa using h

theorem any_arbitrate_false {logs : List Rec}
    (h : ∀ l ∈ logs, norm_action l.action ≠ "arbitrate") :
    (logs.any (fun l => norm_action l.action == "arbitrate")) = false := by
  rw [List.any_eq_false]
  intro l hl
  simp [norm_arbitrate_beq_false (h l hl)]

theorem review_actions_append (l1 l2 : List Rec) :
    review_actions (l1 ++ l2) = review_actions l1 ++ review_actions l2 := by
  simp [review_actions]

theorem review_actions_cons_skip {r : Rec} (l : List Rec)
    (h : norm_action r.action ∉ allowedActions) :
    review_actions (r :: l) = review_actions l := by
  simp [review_actions, h]

theorem review_actions_cons_keep {r : Rec} (l : List Rec)
    (h : norm_action r.action ∈ allowedActions) :
    review_actions (r :: l) = norm_action r.action :: review_actions l := by
  simp [review_actions, h]

theorem mem_review_actions {x : String} {logs : List Rec}
    (h : x ∈ review_actions logs) : ∃ l ∈ logs, x = norm_action l.action := by
  simp only [review_actions, List.mem_filter, List.mem_map] at h
  rcases h with ⟨⟨l, hl, hx⟩, _⟩
  exact ⟨l, hl, hx.symm⟩

/-! ## Claim C1 -/

/-- C1, amended: any `arbitrate` record in a lifecycle forces the verdict
ARBITRATED — a subsequent `arbitrate_undo` does not revert it — and
`undo_arbitration` never modifies the prior records: it either leaves the
log unchanged (error path) or appends exactly one `arbitrate_undo` record. -/
theorem C1_arbitrate_dominates_and_undo_appends :
    (∀ (logs : List Rec) (q : Bool) (m : Int) (l : Rec), l ∈ logs →
        norm_action l.action = "arbitrate" →
        consensus_decision logs q m = ConsensusResult.arbitrated)
    ∧ (∀ (raw : List Rec) (akey pmid admin_email reason : String) (now : Int),
        (undo_arbitration raw akey pmid admin_email reason now).2 = raw ∨
        (undo_arbitration raw akey pmid admin_email reason now).2
          = raw ++ [undo_record akey pmid admin_email reason now]) := by
  constructor
  · intro logs q m l hl hact
    have hne : logs ≠ [] := List.ne_nil_of_mem hl
    have hany : (logs.any (fun l => norm_action l.action == "arbitrate")) = true := by
      rw [List.any_eq_true]
      exact ⟨l, hl, by simp [hact]⟩
    simp only [consensus_decision, if_neg hne, hany, if_true]
  · intro raw akey pmid admin_email reason now
    unfold undo_arbitration
    cases get_latest_arbitration akey pmid raw with
    | none => exact Or.inl rfl
    | some r => exact Or.inr rfl

/-- Witness for C1 (amended): the concrete lifecycle `accept, reject,
arbitrate, arbitrate_undo` decides to ARBITRATED, and undoing on a log with
no arbitration leaves the log unchanged. -/
theorem C1_arbitrate_dominates_witness :
    consensus_decision [recAccept1, recReject1, recArb1, recUndo1] false 2
      = ConsensusResult.arbitrated
    ∧ ((undo_arbitration [recAccept1] "k" "p" "adm@x" "" 7).2 = [recAccept1] ∨
        (undo_arbitration [recAccept1] "k" "p" "adm@x" "" 7).2
          = [recAccept1] ++ [undo_record "k" "p" "adm@x" "" 7]) :=
  ⟨C1_arbitrate_dominates_and_undo_appends.1 [recAccept1, recReject1, recArb1, recUndo1]
      false 2 recArb1 (by decide) (by decide),
    C1_arbitrate_dominates_and_undo_appends.2 [recAccept1] "k" "p" "adm@x" "" 7⟩

/-- Counterexample for C1 as stated: in the lifecycle `accept, reject,
arbitrate, arbitrate_undo` (an arbitrate followed by its undo, no later
arbitrate), the recomputed verdict is ARBITRATED, while the underlying
review records alone decide to CONFLICT. -/
theorem C1_counterexample :
    consensus_decision [recAccept1, recReject1, recArb1, recUndo1] false 2
      = ConsensusResult.arbitrated
    ∧ consensus_decision [recAccept1, recReject1] false 2 = ConsensusResult.conflict
    ∧ ConsensusResult.arbitrated ≠ ConsensusResult.conflict := by decide

/-! ## Claim C6 -/

/-- C6: with threshold 2 and no arbitrate/reject/uncertain records, two
accept records yield CONSENSUS exactly when their (normalized) actors are
distinct; the same actor accepting twice yields PENDING. -/
theorem C6_distinct_actor_counting (r1 r2 : Rec)
    (h1 : norm_action r1.action = "accept") (h2 : norm_action r2.action = "accept")
    (a1 : support_actor r1 ≠ "") (a2 : support_actor r2 ≠ "") :
    consensus_decision [r1, r2] false 2 =
      (if support_actor r1 = support_actor r2 then ConsensusResult.pending
       else ConsensusResult.consensus) := by
  have m1 : norm_action r1.action ∈ allowedActions := by rw [h1]; decide
  have m2 : norm_action r2.action ∈ allowedActions := by rw [h2]; decide
  have hras : review_actions [r1, r2] = ["accept", "accept"] := by
    rw [review_actions_cons_keep [r2] m1, review_actions_cons_keep [] m2, h1, h2]
    rfl
  have harb : (([r1, r2] : List Rec).any (fun l => norm_action l.action == "arbitrate"))
      = false := by
    apply any_arbitrate_false
    intro l hl
    rcases List.mem_cons.mp hl with h | h
    · subst h; rw [h1]; decide
    · have : l = r2 := by simpa using h
      subst this; rw [h2]; decide
  have e1 : support_step [] r1 = [support_actor r1] := by
    rw [support_step, if_pos (Or.inl h1)]
    simp [a1, insertDistinct]
  have hne : ([r1, r2] : List Rec) ≠ [] := by simp
  by_cases hc : support_actor r1 = support_actor r2
  · have e2 : support_reviewers [r1, r2] = [support_actor r1] := by
      show support_step (support_step [] r1) r2 = _
      rw [e1, support_step, if_pos (Or.inl h2)]
      simp only [← hc]
      rw [if_pos (by simpa using a1)]
      exact insertDistinct_of_mem (by simp)
    rw [if_pos hc]
    simp only [consensus_decision, if_neg hne, harb, hras, e2]
    norm_num
    all_goals first | rfl | decide
  · have e2 : support_reviewers [r1, r2] = [support_actor r1, support_actor r2] := by
      show support_step (support_step [] r1) r2 = _
      rw [e1, support_step, if_pos (Or.inl h2)]
      rw [if_pos (by simpa using a2)]
      unfold insertDistinct
      rw [if_neg (by simpa using fun h => hc (h.symm))]
      rfl
    rw [if_neg hc]
    simp only [consensus_decision, if_neg hne, harb, hras, e2]
    norm_num
    decide

/-- Witness for C6: two accepts by the distinct actors `r1@x` and `r2@x`
reach CONSENSUS, while `recAccept1` and `recAcceptDup` (the same actor in
different letter case) stay PENDING. -/
theorem C6_distinct_actor_counting_witness :
    consensus_decision [recAccept1, recAccept2] false 2 = ConsensusResult.consensus
    ∧ consensus_decision [recAccept1, recAcceptDup] false 2 = ConsensusResult.pending := by
  constructor
  · have h := C6_distinct_actor_counting recAccept1 recAccept2
      (by decide) (by decide) (by decide) (by decide)
    rwa [if_neg (by decide)] at h
  · have h := C6_distinct_actor_counting recAccept1 recAcceptDup
      (by decide) (by decide) (by decide) (by decide)
    rwa [if_pos (by decide)] at h

/-! ## Claim C10 -/

theorem support_actor_empty {l : Rec}
    (hc : l.creator = none ∨ l.creator = some "")
    (hr : l.reviewer = none ∨ l.reviewer = some "") :
    support_actor l = "" := by
  unfold support_actor
  rcases hc with hc | hc <;> rcases hr with hr | hr <;> rw [hc, hr] <;> decide

theorem review_actions_ne_nil {logs : List Rec} (hne : logs ≠ [])
    (h : ∀ l ∈ logs, norm_action l.action ∈ allowedActions) :
    review_actions logs ≠ [] := by
  cases logs with
  | nil => exact absurd rfl hne
  | cons r rest =>
    rw [review_actions_cons_keep rest (h r (by simp))]
    simp

/-- C10: an accept/modify record whose creator and reviewer are both absent
or empty contributes no supporter, so a lifecycle of only such records is
PENDING for every positive threshold; and actors are normalized (stripped
and lowercased) before distinct counting, so records whose normalized actors
coincide add only one supporter. -/
theorem C10_empty_actor_and_case_fold :
    (∀ (logs : List Rec) (q : Bool) (m : Int), logs ≠ [] → 1 ≤ m →
        (∀ l ∈ logs, norm_action l.action = "accept" ∨ norm_action l.action = "modify") →
        (∀ l ∈ logs, (l.creator = none ∨ l.creator = some "")
          ∧ (l.reviewer = none ∨ l.reviewer = some "")) →
        consensus_decision logs q m = ConsensusResult.pending)
    ∧ (∀ (r1 r2 : Rec) (rest : List Rec),
        (norm_action r1.action = "accept" ∨ norm_action r1.action = "modify") →
        (norm_action r2.action = "accept" ∨ norm_action r2.action = "modify") →
        support_actor r1 = support_actor r2 →
        support_reviewers (r1 :: r2 :: rest) = support_reviewers (r1 :: rest)) := by
  constructor
  · intro logs q m hne hm hact hfields
    have hallowed : ∀ l ∈ logs, norm_action l.action ∈ allowedActions := by
      intro l hl
      rcases hact l hl with h | h <;> rw [h] <;> decide
    have harb : (logs.any (fun l => norm_action l.action == "arbitrate")) = false := by
      apply any_arbitrate_false
      intro l hl
      rcases hact l hl with h | h <;> rw [h] <;> decide
    have hras : review_actions logs ≠ [] := review_actions_ne_nil hne hallowed
    have hmem : ∀ x ∈ review_actions logs, x = "accept" ∨ x = "modify" := by
      intro x hx
      rcases mem_review_actions hx with ⟨l, hl, hx⟩
      rcases hact l hl with h | h
      · exact Or.inl (hx.trans h)
      · exact Or.inr (hx.trans h)
    have hcr : (review_actions logs).count "reject" = 0 := by
      rw [List.count_eq_zero]
      intro hmem'
      rcases hmem _ hmem' with h | h <;> simp at h
    have hcu : (review_actions logs).count "uncertain" = 0 := by
      rw [List.count_eq_zero]
      intro hmem'
      rcases hmem _ hmem' with h | h <;> simp at h
    have hsup : support_reviewers logs = [] :=
      foldl_support_step_id (fun l hl => support_actor_empty (hfields l hl).1 (hfields l hl).2) []
    simp only [consensus_decision, if_neg hne, harb, if_neg hras, hcr, hcu, hsup]
    norm_num
    omega
  · intro r1 r2 rest hs1 hs2 hc
    show List.foldl support_step (support_step (support_step [] r1) r2) rest
        = List.foldl support_step (support_step [] r1) rest
    congr 1
    by_cases ha : support_actor r1 = ""
    · rw [support_step_empty_actor _ (hc ▸ ha)]
    · have e1 : support_step [] r1 = insertDistinct [] (support_actor r1) := by
        simp only [support_step, if_pos hs1]
        rw [if_pos (by simpa using ha)]
      rw [e1]
      simp only [support_step, if_pos hs2]
      rw [if_pos (by simpa [← hc] using ha), ← hc]
      exact insertDistinct_of_mem (mem_insertDistinct_self _ _)

/-- Witness for C10: a lifecycle of one actor-less accept is PENDING, and
the differently-cased duplicate actor of `recAcceptDup` adds no second
supporter. -/
theorem C10_empty_actor_and_case_fold_witness :
    consensus_decision [recNoActor] false 2 = ConsensusResult.pending
    ∧ support_reviewers [recAccept1, recAcceptDup] = support_reviewers [recAccept1] :=
  ⟨C10_empty_actor_and_case_fold.1 [recNoActor] false 2 (by decide) (by decide)
      (by decide) (by decide),
    C10_empty_actor_and_case_fold.2 recAccept1 recAcceptDup [] (by decide) (by decide)
      (by decide)⟩

/-! ## Claim C8 -/

/-- C8: `consensus_decision` is total over arbitrary record lists.  A record
whose normalized action is unknown (including a missing action, which
normalizes to `""`) never affects the verdict; a record whose two timestamp
fields are both unparseable or missing gets timestamp `0`; and every call
returns one of the five verdicts. -/
theorem C8_total_and_ignores_unknown :
    (∀ (q : Bool) (m : Int) (pre post : List Rec) (r : Rec),
        norm_action r.action ∉
          (["accept", "modify", "reject", "uncertain", "arbitrate"] : List String) →
        consensus_decision (pre ++ r :: post) q m = consensus_decision (pre ++ post) q m)
    ∧ (∀ r : Rec, tsField r.created_at = none → tsField r.timestamp = none → ts r = 0)
    ∧ (∀ (logs : List Rec) (q : Bool) (m : Int),
        consensus_decision logs q m ∈
          ([ConsensusResult.pending, ConsensusResult.uncertain, ConsensusResult.conflict,
            ConsensusResult.consensus, ConsensusResult.arbitrated] : List ConsensusResult)) := by
  refine ⟨?_, ?_, ?_⟩
  · intro q m pre post r h
    have hna : norm_action r.action ∉ allowedActions := by
      intro hx
      apply h
      have hsub : ∀ x ∈ allowedActions, x ∈
          (["accept", "modify", "reject", "uncertain", "arbitrate"] : List String) := by decide
      exact hsub _ hx
    have harb : norm_action r.action ≠ "arbitrate" := by
      intro hx; exact h (by rw [hx]; decide)
    have hskip : ¬ (norm_action r.action = "accept" ∨ norm_action r.action = "modify") := by
      rintro (hx | hx) <;> exact hna (by rw [hx]; decide)
    have hmod : (norm_action r.action == "modify") = false := by
      simpa using fun hx => hna (by rw [hx]; decide)
    have e_any : ((pre ++ r :: post).any (fun l => norm_action l.action == "arbitrate"))
        = ((pre ++ post).any (fun l => norm_action l.action == "arbitrate")) := by
      simp [List.any_append, norm_arbitrate_beq_false harb]
    have e_ras : review_actions (pre ++ r :: post) = review_actions (pre ++ post) := by
      rw [review_actions_append, review_actions_append, review_actions_cons_skip post hna]
    have e_sup : support_reviewers (pre ++ r :: post) = support_reviewers (pre ++ post) := by
      unfold support_reviewers
      rw [List.foldl_append, List.foldl_append, List.foldl_cons, support_step_skip _ hskip]
    have e_mod : (pre ++ r :: post).filter (fun l => norm_action l.action == "modify")
        = (pre ++ post).filter (fun l => norm_action l.action == "modify") := by
      simp [List.filter_append, List.filter_cons, hmod]
    by_cases hpp : pre ++ post = []
    · rcases List.append_eq_nil.mp hpp with ⟨hpre, hpost⟩
      subst hpre; subst hpost
      have hras : review_actions [r] = [] := by
        rw [show ([r] : List Rec) = [] ++ r :: [] from rfl] at e_ras
        simpa using e_ras
      simp only [consensus_decision]
      rw [if_neg (by simp : ([] ++ r :: [] : List Rec) ≠ [])]
      have : (([] ++ r :: [] : List Rec).any (fun l => norm_action l.action == "arbitrate"))
          = false := by
        simpa using norm_arbitrate_beq_false harb
      rw [this]
      simp only [Bool.false_eq_true, if_false]
      rw [show review_actions ([] ++ r :: []) = [] from by simpa using hras]
      simp
    · simp only [consensus_decision]
      rw [if_neg (by simp : (pre ++ r :: post : List Rec) ≠ []), if_neg hpp,
        e_any, e_ras, e_sup, e_mod]
  · intro r h1 h2
    simp [ts, h1, h2]
  · intro logs q m
    cases h : consensus_decision logs q m <;> simp

/-- Witness for C8: inserting the unknown-action record `recUnknown`
between two accepts leaves the verdict unchanged, and the timestamps of
`recBadTs` (unparseable `created_at`, missing `timestamp`) read as 0. -/
theorem C8_total_and_ignores_unknown_witness :
    consensus_decision ([recAccept1] ++ recUnknown :: [recAccept2]) false 2
      = consensus_decision ([recAccept1] ++ [recAccept2]) false 2
    ∧ ts recBadTs = 0 :=
  ⟨C8_total_and_ignores_unknown.1 false 2 [recAccept1] [recAccept2] recUnknown (by decide),
    C8_total_and_ignores_unknown.2.1 recBadTs (by decide) (by decide)⟩

/-! ## Claim C3 -/

/-- C3, amended: a non-`add` record with no content hash, no back-reference
and no assertion identifier resolves to the most recently seen `add` key
only when it also carries no subject/predicate/object content; when content
fields are present, the derived content key takes precedence over the last
`add` key, and the content key is also the final fallback when no `add` key
has been seen. -/
theorem C3_identifierless_resolution (last : Option String) (r : Rec)
    (hadd : norm_action r.action ≠ "add")
    (hch : pyStrip (r.content_hash.getD "") = "")
    (hrid : pyStrip (r.related_to.getD "") = "")
    (haid : pyStrip (r.assertion_id.getD "") = "") :
    (has_content r = true → resolve_key last r = content_key r)
    ∧ (has_content r = false → ∀ k, last = some k → k ≠ "" → resolve_key last r = k)
    ∧ (has_content r = false → last = none → resolve_key last r = content_key r) := by
  simp only [resolve_key, hch, hrid, haid, ne_eq, not_true_eq_false, if_false,
    if_neg hadd]
  refine ⟨?_, ?_, ?_⟩
  · intro hc
    rw [if_pos hc]
  · intro hc k hk hkne
    rw [if_neg (by simp [hc]), hk]
    simp [hkne]
  · intro hc hk
    rw [if_neg (by simp [hc]), hk]

/-- Witness for C3 (amended): with last add key `a||r|b|` in scope, the
content-bearing reject `recRejectContent` resolves to its own content key,
while the content-less reject `recReject1` resolves to the add key. -/
theorem C3_identifierless_resolution_witness :
    resolve_key (some "a||r|b|") recRejectContent = content_key recRejectContent
    ∧ resolve_key (some "a||r|b|") recReject1 = "a||r|b|" :=
  ⟨(C3_identifierless_resolution (some "a||r|b|") recRejectContent
      (by decide) (by decide) (by decide) (by decide)).1 (by decide),
    (C3_identifierless_resolution (some "a||r|b|") recReject1
      (by decide) (by decide) (by decide) (by decide)).2.1 (by decide)
      "a||r|b|" rfl (by decide)⟩

/-- Counterexample for C3 as stated: after the `add` of content `(a, r, b)`,
the identifier-less reject `recRejectContent` — which carries its own
subject field — is grouped under its derived content key `zz||||`, not under
the most recently seen add key `a||r|b|`. -/
theorem C3_counterexample :
    group_logs_for_pmid_ordered "p" [recAdd1, recRejectContent]
      = [("a||r|b|", [recAdd1]), ("zz||||", [recRejectContent])]
    ∧ resolve_key (some "a||r|b|") recRejectContent = "zz||||"
    ∧ ("zz||||" : String) ≠ "a||r|b|" := by decide

/-! ## Claim C7 -/

/-- C7: without overwrite, `set_arbitration_result` on a lifecycle that is
not currently in conflict never appends anything: it returns the latest
prior arbitration when that decision is identical to the requested one, and
otherwise fails with an `ArbitrationError`; on both paths the log is
untouched. -/
theorem C7_non_conflict_never_appends (raw : List Rec)
    (pmid akey decision admin_email comment : String) (now : Int)
    (hnc : akey ∉ find_assertion_conflict_keys pmid raw) :
    (set_arbitration_result raw pmid akey decision admin_email comment false now).2 = raw
    ∧ ((∃ latest, get_latest_arbitration akey pmid raw = some latest
          ∧ norm_action latest.arbitrate_decision = norm_action (some decision)
          ∧ (set_arbitration_result raw pmid akey decision admin_email comment false now).1
              = ArbOutcome.ok latest)
        ∨ (∃ msg, (set_arbitration_result raw pmid akey decision admin_email comment false now).1
              = ArbOutcome.error msg)) := by
  unfold set_arbitration_result
  by_cases hv : norm_action (some decision) ∈ valid_decisions
  · rw [if_neg (not_not_intro hv), if_pos ⟨by simp, hnc⟩]
    cases h : get_latest_arbitration akey pmid raw with
    | none => exact ⟨rfl, Or.inr ⟨_, rfl⟩⟩
    | some latest =>
      dsimp only
      by_cases heq : norm_action latest.arbitrate_decision = norm_action (some decision)
      · rw [if_pos heq]
        exact ⟨rfl, Or.inl ⟨latest, rfl, heq, rfl⟩⟩
      · rw [if_neg heq]
        exact ⟨rfl, Or.inr ⟨_, rfl⟩⟩
  · rw [if_pos hv]
    exact ⟨rfl, Or.inr ⟨_, rfl⟩⟩

/-- Witness for C7: on the single-accept lifecycle of `recAccept1` (status
PENDING, not CONFLICT), requesting an arbitration leaves the log equal to
`[recAccept1]` and produces an error outcome. -/
theorem C7_non_conflict_never_appends_witness :
    (set_arbitration_result [recAccept1] "p" "||||" "accept" "adm@x" "" false 10).2
      = [recAccept1]
    ∧ ((∃ latest, get_latest_arbitration "||||" "p" [recAccept1] = some latest
          ∧ norm_action latest.arbitrate_decision = norm_action (some "accept")
          ∧ (set_arbitration_result [recAccept1] "p" "||||" "accept" "adm@x" "" false 10).1
              = ArbOutcome.ok latest)
        ∨ (∃ msg, (set_arbitration_result [recAccept1] "p" "||||" "accept" "adm@x" "" false 10).1
              = ArbOutcome.error msg)) :=
  C7_non_conflict_never_appends [recAccept1] "p" "||||" "accept" "adm@x" "" 10 (by decide)

/-! ## Helper lemmas: lock table -/

theorem expire_reviewers_all {cfg : AssignConfig} {t : Int} {rs : List (String × Int)}
    (hall : ∀ q ∈ rs, t - q.2 > cfg.timeout_seconds) (h : List HistEntry) :
    (expire_reviewers cfg t rs h).1 = [] := by
  induction rs generalizing h with
  | nil => rfl
  | cons q rest ih =>
    rcases q with ⟨e, hb⟩
    rw [expire_reviewers, if_pos (hall (e, hb) (by simp))]
    exact ih (fun q hq => hall q (List.mem_cons_of_mem _ hq)) _

theorem expire_reviewers_length_le (cfg : AssignConfig) (t : Int) (rs : List (String × Int))
    (h : List HistEntry) : (expire_reviewers cfg t rs h).1.length ≤ rs.length := by
  induction rs generalizing h with
  | nil => simp [expire_reviewers]
  | cons q rest ih =>
    rcases q with ⟨e, hb⟩
    rw [expire_reviewers]
    split
    · exact le_trans (ih _) (by simp)
    · simpa using ih h

theorem locks_lookup_none {locks : Locks} {pmid : String}
    (h : ∀ p ∈ locks, p.1 ≠ pmid) : locks.lookup pmid = none := by
  induction locks with
  | nil => rfl
  | cons hd rest ih =>
    rcases hd with ⟨k, l⟩
    have hk : (pmid == k) = false := by
      simpa using fun hx => h (k, l) (by simp) (by simp [hx])
    simp only [List.lookup, hk]
    exact ih (fun p hp => h p (List.mem_cons_of_mem _ hp))

theorem mem_of_lookup_eq_some {locks : Locks} {pmid : String} {lock : LockRec}
    (h : locks.lookup pmid = some lock) : (pmid, lock) ∈ locks := by
  induction locks with
  | nil => simp [List.lookup] at h
  | cons hd rest ih =>
    rcases hd with ⟨k, l⟩
    cases hbeq : (pmid == k) with
    | true =>
      simp only [List.lookup, hbeq] at h
      have : l = lock := by simpa using h
      subst this
      have : pmid = k := by simpa using hbeq
      subst this
      simp
    | false =>
      simp only [List.lookup, hbeq] at h
      exact List.mem_cons_of_mem _ (ih h)

/-! ## Claim C5 -/

/-- C5: once every heartbeat a document's holders ever registered is older
than the timeout, the stale-lock expiry pass removes them all and
`who_has_abstract` returns the empty holder list. -/
theorem C5_timeout_reclaims_lock (cfg : AssignConfig) (locks : Locks) (pmid : String) (t : Int)
    (h : ∀ p ∈ locks, p.1 = pmid → ∀ q ∈ p.2.reviewers, t - q.2 > cfg.timeout_seconds) :
    who_has_abstract pmid (cleanup_expired cfg t locks) = [] := by
  unfold who_has_abstract
  rw [locks_lookup_none ?hkeys]
  case hkeys =>
    intro p hp
    unfold cleanup_expired at hp
    rcases List.mem_filter.mp hp with ⟨hpm, hpe⟩
    rcases List.mem_map.mp hpm with ⟨q, hq, rfl⟩
    dsimp only at hpe ⊢
    intro hkey
    have hall : ∀ r ∈ q.2.reviewers, t - r.2 > cfg.timeout_seconds := h q hq hkey
    rw [expire_reviewers_all hall q.2.history] at hpe
    simp at hpe

/-- Witness for C5: the single holder `a@x`, last heartbeat at time 1, is
gone from `who_has_abstract` after expiry runs at time 5000 (past the
30-minute default timeout). -/
theorem C5_timeout_reclaims_lock_witness :
    who_has_abstract "p" (cleanup_expired defaultConfig 5000 [("p", new_lock "a@x" 1)]) = [] :=
  C5_timeout_reclaims_lock defaultConfig [("p", new_lock "a@x" 1)] "p" 5000 (by decide)

/-! ## Helper lemmas: the concurrency cap -/

theorem cap_invariant_nil {m : Nat} : cap_invariant m [] := by
  intro p hp
  simp at hp

theorem cap_invariant_cons {m : Nat} {k : String} {l : LockRec} {rest : Locks} :
    cap_invariant m ((k, l) :: rest) ↔ l.reviewers.length ≤ m ∧ cap_invariant m rest := by
  constructor
  · intro h
    exact ⟨h (k, l) (by simp), fun p hp => h p (List.mem_cons_of_mem _ hp)⟩
  · rintro ⟨h1, h2⟩ p hp
    rcases List.mem_cons.mp hp with rfl | hp
    · exact h1
    · exact h2 p hp

theorem cap_invariant_append {m : Nat} {l1 l2 : Locks}
    (h1 : cap_invariant m l1) (h2 : cap_invariant m l2) : cap_invariant m (l1 ++ l2) := by
  intro p hp
  rcases List.mem_append.mp hp with hp | hp
  · exact h1 p hp
  · exact h2 p hp

theorem length_set_heartbeat_of_mem {rs : List (String × Int)} {email : String} {now : Int}
    (h : email ∈ rs.map (fun p => p.1)) :
    (set_heartbeat rs email now).length = rs.length := by
  simp [set_heartbeat, h]

theorem cap_replace_lock {m : Nat} {locks : Locks} {pmid : String} {newl : LockRec}
    (hinv : cap_invariant m locks) (hn : newl.reviewers.length ≤ m) :
    cap_invariant m (replace_lock locks pmid newl) := by
  induction locks with
  | nil => exact cap_invariant_nil
  | cons hd rest ih =>
    rcases hd with ⟨k, l⟩
    rcases cap_invariant_cons.mp hinv with ⟨hl, hrest⟩
    rw [replace_lock]
    split
    · exact cap_invariant_cons.mpr ⟨hn, hrest⟩
    · exact cap_invariant_cons.mpr ⟨hl, ih hrest⟩

theorem cap_cleanup_expired {m : Nat} {cfg : AssignConfig} {t : Int} {locks : Locks}
    (hinv : cap_invariant m locks) : cap_invariant m (cleanup_expired cfg t locks) := by
  intro p hp
  unfold cleanup_expired at hp
  rcases List.mem_filter.mp hp with ⟨hpm, _⟩
  rcases List.mem_map.mp hpm with ⟨q, hq, rfl⟩
  dsimp only
  exact le_trans (expire_reviewers_length_le cfg t q.2.reviewers q.2.history) (hinv q hq)

theorem cap_refresh_holding {m : Nat} {locks : Locks} {email : String} {now : Int}
    (hinv : cap_invariant m locks) :
    cap_invariant m (refresh_holding locks email now).2 := by
  induction locks with
  | nil => exact cap_invariant_nil
  | cons hd rest ih =>
    rcases hd with ⟨k, l⟩
    rcases cap_invariant_cons.mp hinv with ⟨hl, hrest⟩
    rw [refresh_holding]
    split
    · next hmem =>
      refine cap_invariant_cons.mpr ⟨?_, hrest⟩
      simpa [length_set_heartbeat_of_mem hmem] using hl
    · exact cap_invariant_cons.mpr ⟨hl, ih hrest⟩

theorem cap_new_lock {m : Nat} {email : String} {now : Int} (hm : 1 ≤ m) :
    (new_lock email now).reviewers.length ≤ m := by
  simpa [new_lock] using hm

theorem cap_try_acquire {cfg : AssignConfig} {email : String} {now : Int}
    (order : List String) (locks : Locks)
    (hinv : cap_invariant cfg.max_concurrent_reviewers locks)
    (hm : 1 ≤ cfg.max_concurrent_reviewers) :
    cap_invariant cfg.max_concurrent_reviewers (try_acquire cfg email now order locks).2 := by
  induction order generalizing locks with
  | nil => exact hinv
  | cons pmid rest ih =>
    rw [try_acquire]
    cases hl : locks.lookup pmid with
    | none =>
      dsimp only
      exact cap_invariant_append hinv
        (cap_invariant_cons.mpr ⟨cap_new_lock hm, cap_invariant_nil⟩)
    | some lock =>
      dsimp only
      have hlk : lock.reviewers.length ≤ cfg.max_concurrent_reviewers :=
        hinv (pmid, lock) (mem_of_lookup_eq_some hl)
      by_cases hmem : email ∈ lock.reviewers.map (fun p => p.1)
      · rw [if_pos hmem]
        dsimp only
        refine cap_replace_lock hinv ?_
        simpa [length_set_heartbeat_of_mem hmem] using hlk
      · rw [if_neg hmem]
        by_cases hcap : lock.reviewers.length < cfg.max_concurrent_reviewers
        · rw [if_pos hcap]
          dsimp only
          refine cap_replace_lock hinv ?_
          simpa using hcap
        · rw [if_neg hcap]
          exact ih locks hinv

theorem cap_fallback_scan {cfg : AssignConfig} {email : String} {hist : String → List String}
    {now : Int} (abstracts : List (Option String)) (locks : Locks)
    (hinv : cap_invariant cfg.max_concurrent_reviewers locks)
    (hm : 1 ≤ cfg.max_concurrent_reviewers) :
    cap_invariant cfg.max_concurrent_reviewers
      (fallback_scan cfg email hist now abstracts locks).2 := by
  induction abstracts generalizing locks with
  | nil => exact hinv
  | cons a rest ih =>
    rw [fallback_scan]
    by_cases h0 : pyOr a "" = ""
    · rw [if_pos h0]
      exact ih locks hinv
    · rw [if_neg h0]
      by_cases hh : email ∈ hist (pyOr a "")
      · rw [if_pos hh]
        exact ih locks hinv
      · rw [if_neg hh]
        cases hl : locks.lookup (pyOr a "") with
        | none =>
          dsimp only
          exact cap_invariant_append hinv
            (cap_invariant_cons.mpr ⟨cap_new_lock hm, cap_invariant_nil⟩)
        | some lock =>
          dsimp only
          have hlk : lock.reviewers.length ≤ cfg.max_concurrent_reviewers :=
            hinv (pyOr a "", lock) (mem_of_lookup_eq_some hl)
          by_cases hmem : email ∈ lock.reviewers.map (fun p => p.1)
          · rw [if_pos hmem]
            dsimp only
            refine cap_replace_lock hinv ?_
            simpa [length_set_heartbeat_of_mem hmem] using hlk
          · rw [if_neg hmem]
            by_cases hcap : lock.reviewers.length < cfg.max_concurrent_reviewers
            · rw [if_pos hcap]
              dsimp only
              refine cap_replace_lock hinv ?_
              simpa using hcap
            · rw [if_neg hcap]
              exact ih locks hinv

theorem cap_prefer_current_step {cfg : AssignConfig} {email : String}
    {hist : String → List String} {now : Int} {pc : String} {locks : Locks}
    (hinv : cap_invariant cfg.max_concurrent_reviewers locks)
    (hm : 1 ≤ cfg.max_concurrent_reviewers) :
    cap_invariant cfg.max_concurrent_reviewers
      (prefer_current_step cfg email hist now pc locks).2 := by
  rw [prefer_current_step]
  by_cases h0 : email ∈ hist pc ∧ locks.lookup pc = none
  · rw [if_pos h0]
    exact hinv
  · rw [if_neg h0]
    cases hl : locks.lookup pc with
    | none =>
      dsimp only
      by_cases hh : email ∉ hist pc
      · rw [if_pos hh]
        dsimp only
        exact cap_invariant_append hinv
          (cap_invariant_cons.mpr ⟨cap_new_lock hm, cap_invariant_nil⟩)
      · rw [if_neg hh]
        exact hinv
    | some lock =>
      dsimp only
      have hlk : lock.reviewers.length ≤ cfg.max_concurrent_reviewers :=
        hinv (pc, lock) (mem_of_lookup_eq_some hl)
      by_cases hmem : email ∈ lock.reviewers.map (fun p => p.1)
      · rw [if_pos hmem]
        dsimp only
        refine cap_replace_lock hinv ?_
        simpa [length_set_heartbeat_of_mem hmem] using hlk
      · rw [if_neg hmem]
        by_cases hcap : lock.reviewers.length < cfg.max_concurrent_reviewers
        · rw [if_pos hcap]
          dsimp only
          refine cap_replace_lock hinv ?_
          simpa using hcap
        · rw [if_neg hcap]
          exact hinv

theorem cap_build_pools {cfg : AssignConfig} {email : String} {hist : String → List String}
    {now : Int} (abstracts : List (Option String)) (locks : Locks)
    (singles empties partials : List String)
    (hinv : cap_invariant cfg.max_concurrent_reviewers locks) :
    cap_invariant cfg.max_concurrent_reviewers
      (pools_locks (build_pools cfg email hist now abstracts locks singles empties partials)) := by
  induction abstracts generalizing locks singles empties partials with
  | nil => exact hinv
  | cons a rest ih =>
    rw [build_pools]
    by_cases h0 : pyOr a "" = ""
    · rw [if_pos h0]
      exact ih locks _ _ _ hinv
    · rw [if_neg h0]
      by_cases hh : email ∈ hist (pyOr a "")
      · rw [if_pos hh]
        exact ih locks _ _ _ hinv
      · rw [if_neg hh]
        cases hl : locks.lookup (pyOr a "") with
        | none =>
          dsimp only
          by_cases h1 : (hist (pyOr a "")).length = 1
          · rw [if_pos h1]
            exact ih locks _ _ _ hinv
          · rw [if_neg h1]
            exact ih locks _ _ _ hinv
        | some lock =>
          dsimp only
          have hlk : lock.reviewers.length ≤ cfg.max_concurrent_reviewers :=
            hinv (pyOr a "", lock) (mem_of_lookup_eq_some hl)
          by_cases hmem : email ∈ lock.reviewers.map (fun p => p.1)
          · rw [if_pos hmem]
            refine cap_replace_lock hinv ?_
            simpa [length_set_heartbeat_of_mem hmem] using hlk
          · rw [if_neg hmem]
            by_cases hcap : lock.reviewers.length < cfg.max_concurrent_reviewers
            · rw [if_pos hcap]
              by_cases h1 : (hist (pyOr a "")).length = 1
              · rw [if_pos h1]
                exact ih locks _ _ _ hinv
              · rw [if_neg h1]
                exact ih locks _ _ _ hinv
            · rw [if_neg hcap]
              exact ih locks _ _ _ hinv

theorem cap_release_assignment {m : Nat} {email pmid : String} {now : Int} {locks : Locks}
    (hinv : cap_invariant m locks) :
    cap_invariant m (release_assignment email pmid now locks).2 := by
  rw [release_assignment]
  dsimp only
  by_cases h0 : pyStrip (pyLower email) = "" ∨ pmid = ""
  · rw [if_pos h0]
    exact hinv
  · rw [if_neg h0]
    cases hl : locks.lookup pmid with
    | none =>
      dsimp only
      exact hinv
    | some lock =>
      dsimp only
      have hlk : lock.reviewers.length ≤ m := hinv (pmid, lock) (mem_of_lookup_eq_some hl)
      by_cases hmem : pyStrip (pyLower email) ∈ lock.reviewers.map (fun p => p.1)
      · rw [if_neg (not_not_intro hmem)]
        by_cases hrs : lock.reviewers.filter (fun p => p.1 != pyStrip (pyLower email)) = []
        · rw [if_pos hrs]
          dsimp only
          intro p hp
          unfold remove_lock at hp
          exact hinv p (List.mem_of_mem_filter hp)
        · rw [if_neg hrs]
          dsimp only
          refine cap_replace_lock hinv ?_
          exact le_trans (List.length_filter_le _ _) hlk
      · rw [if_pos hmem]
        exact hinv

/-! ## Claim C2 -/

/-- C2, amended: `assign_abstract_to_reviewer` (for every randomness
oracle), `release_assignment` and stale-lock expiry all preserve the
reviewer-concurrency cap; `touch_assignment` alone performs no cap check
(see the counterexample). -/
theorem C2_cap_preserved_except_touch
    (cfg : AssignConfig) (abstracts : List (Option String)) (raw_logs : List Rec)
    (single_priority : Bool) (shuffle : List String → List String)
    (email0 : String) (prefer_current : Option String) (now : Int) (locks : Locks)
    (e p : String) (t t2 : Int)
    (hinv : cap_invariant cfg.max_concurrent_reviewers locks)
    (hm : 1 ≤ cfg.max_concurrent_reviewers) :
    cap_invariant cfg.max_concurrent_reviewers
        (assign_abstract_to_reviewer cfg abstracts raw_logs single_priority shuffle
          email0 prefer_current now locks).2
    ∧ cap_invariant cfg.max_concurrent_reviewers (release_assignment e p t locks).2
    ∧ cap_invariant cfg.max_concurrent_reviewers (cleanup_expired cfg t2 locks) := by
  refine ⟨?_, cap_release_assignment hinv, cap_cleanup_expired hinv⟩
  rw [assign_abstract_to_reviewer]
  dsimp only
  by_cases he : pyStrip (pyLower email0) = ""
  · rw [if_pos he]
    exact hinv
  · rw [if_neg he]
    have h1 : cap_invariant cfg.max_concurrent_reviewers (cleanup_expired cfg now locks) :=
      cap_cleanup_expired hinv
    cases hr : refresh_holding (cleanup_expired cfg now locks) (pyStrip (pyLower email0)) now with
    | mk o1 L2 =>
      have h2 : cap_invariant cfg.max_concurrent_reviewers L2 := by
        have := @cap_refresh_holding cfg.max_concurrent_reviewers
          (cleanup_expired cfg now locks) (pyStrip (pyLower email0)) now h1
        rwa [hr] at this
      cases o1 with
      | some pmid =>
        exact h2
      | none =>
        dsimp only
        cases prefer_current with
        | none =>
          dsimp only
          cases hb : build_pools cfg (pyStrip (pyLower email0)) (hist_reviewers raw_logs)
              now abstracts L2 [] [] [] with
          | inr x =>
            have h4 : cap_invariant cfg.max_concurrent_reviewers x.2 := by
              have := @cap_build_pools cfg (pyStrip (pyLower email0))
                (hist_reviewers raw_logs) now abstracts L2 [] [] [] h2
              rwa [hb] at this
            exact h4
          | inl x =>
            have h4 : cap_invariant cfg.max_concurrent_reviewers x.2.2.2 := by
              have := @cap_build_pools cfg (pyStrip (pyLower email0))
                (hist_reviewers raw_logs) now abstracts L2 [] [] [] h2
              rwa [hb] at this
            rcases x with ⟨singles, empties, partials, L4⟩
            dsimp only at h4 ⊢
            cases ht : try_acquire cfg (pyStrip (pyLower email0)) now
                (shuffle (if single_priority ∧ singles ≠ [] then singles
                  else empties ++ singles ++ partials)) L4 with
            | mk o5 L5 =>
              have h5 : cap_invariant cfg.max_concurrent_reviewers L5 := by
                have := @cap_try_acquire cfg (pyStrip (pyLower email0)) now
                  (shuffle (if single_priority ∧ singles ≠ [] then singles
                    else empties ++ singles ++ partials)) L4 h4 hm
                rwa [ht] at this
              cases o5 with
              | some pmid => exact h5
              | none =>
                dsimp only
                exact cap_fallback_scan abstracts L5 h5 hm
        | some pc =>
          dsimp only
          cases hp : prefer_current_step cfg (pyStrip (pyLower email0))
              (hist_reviewers raw_logs) now pc L2 with
          | mk o2 L3 =>
            have h3 : cap_invariant cfg.max_concurrent_reviewers L3 := by
              have := @cap_prefer_current_step cfg (pyStrip (pyLower email0))
                (hist_reviewers raw_logs) now pc L2 h2 hm
              rwa [hp] at this
            cases o2 with
            | some pmid => exact h3
            | none =>
              dsimp only
              cases hb : build_pools cfg (pyStrip (pyLower email0)) (hist_reviewers raw_logs)
                  now abstracts L3 [] [] [] with
              | inr x =>
                have h4 : cap_invariant cfg.max_concurrent_reviewers x.2 := by
                  have := @cap_build_pools cfg (pyStrip (pyLower email0))
                    (hist_reviewers raw_logs) now abstracts L3 [] [] [] h3
                  rwa [hb] at this
                exact h4
              | inl x =>
                have h4 : cap_invariant cfg.max_concurrent_reviewers x.2.2.2 := by
                  have := @cap_build_pools cfg (pyStrip (pyLower email0))
                    (hist_reviewers raw_logs) now abstracts L3 [] [] [] h3
                  rwa [hb] at this
                rcases x with ⟨singles, empties, partials, L4⟩
                dsimp only at h4 ⊢
                cases ht : try_acquire cfg (pyStrip (pyLower email0)) now
                    (shuffle (if single_priority ∧ singles ≠ [] then singles
                      else empties ++ singles ++ partials)) L4 with
                | mk o5 L5 =>
                  have h5 : cap_invariant cfg.max_concurrent_reviewers L5 := by
                    have := @cap_try_acquire cfg (pyStrip (pyLower email0)) now
                      (shuffle (if single_priority ∧ singles ≠ [] then singles
                        else empties ++ singles ++ partials)) L4 h4 hm
                    rwa [ht] at this
                  cases o5 with
                  | some pmid => exact h5
                  | none =>
                    dsimp only
                    exact cap_fallback_scan abstracts L5 h5 hm

/-- Witness for C2 (amended): the three preserved operations applied from
the empty lock table under the default configuration. -/
theorem C2_cap_preserved_except_touch_witness :
    cap_invariant defaultConfig.max_concurrent_reviewers
        (assign_abstract_to_reviewer defaultConfig [some "P1"] [] true id
          "a@x" none 0 []).2
    ∧ cap_invariant defaultConfig.max_concurrent_reviewers
        (release_assignment "a@x" "P1" 1 []).2
    ∧ cap_invariant defaultConfig.max_concurrent_reviewers
        (cleanup_expired defaultConfig 1 []) :=
  C2_cap_preserved_except_touch defaultConfig [some "P1"] [] true id "a@x" none 0 []
    "a@x" "P1" 1 1 (by decide) (by decide)

/-- Counterexample for C2 as stated: three `touch_assignment` calls by three
distinct reviewers on document `p` leave three active holders, exceeding
`MAX_REVIEWERS_PER_ABSTRACT = 2` — `touch_assignment` performs no cap
check. -/
theorem C2_counterexample :
    (who_has_abstract "p" (touch_assignment "c@x" "p" 3
        (touch_assignment "b@x" "p" 2
          (touch_assignment "a@x" "p" 1 []).2).2).2).map (fun q => q.1)
      = ["a@x", "b@x", "c@x"]
    ∧ ¬ cap_invariant MAX_REVIEWERS_PER_ABSTRACT
        (touch_assignment "c@x" "p" 3 (touch_assignment "b@x" "p" 2
          (touch_assignment "a@x" "p" 1 []).2).2).2 := by decide

/-! ## Claim C4 -/

/-- C4, amended: the last-resort fallback of `assign_abstract_to_reviewer`
still respects the "never historically touched" constraint — whenever the
fallback scan assigns a document, the reviewer is not among its historical
actors; only after the fallback also fails is "no documents available"
(`none`) reported, as a normal outcome. -/
theorem C4_fallback_respects_history (cfg : AssignConfig) (email : String)
    (hist : String → List String) (now : Int) (abstracts : List (Option String))
    (locks : Locks) (p : String) (L : Locks)
    (h : fallback_scan cfg email hist now abstracts locks = (some p, L)) :
    email ∉ hist p := by
  induction abstracts generalizing locks with
  | nil => simp [fallback_scan] at h
  | cons a rest ih =>
    rw [fallback_scan] at h
    by_cases h0 : pyOr a "" = ""
    · rw [if_pos h0] at h
      exact ih locks h
    · rw [if_neg h0] at h
      by_cases hh : email ∈ hist (pyOr a "")
      · rw [if_pos hh] at h
        exact ih locks h
      · rw [if_neg hh] at h
        cases hl : locks.lookup (pyOr a "") with
        | none =>
          rw [hl] at h
          dsimp only at h
          have hp : pyOr a "" = p := by
            simpa using congrArg Prod.fst h
          rw [← hp]
          exact hh
        | some lock =>
          rw [hl] at h
          dsimp only at h
          by_cases hmem : email ∈ lock.reviewers.map (fun q => q.1)
          · rw [if_pos hmem] at h
            have hp : pyOr a "" = p := by
              simpa using congrArg Prod.fst h
            rw [← hp]
            exact hh
          · rw [if_neg hmem] at h
            by_cases hcap : lock.reviewers.length < cfg.max_concurrent_reviewers
            · rw [if_pos hcap] at h
              have hp : pyOr a "" = p := by
                simpa using congrArg Prod.fst h
              rw [← hp]
              exact hh
            · rw [if_neg hcap] at h
              exact ih locks h

/-- Witness for C4 (amended): the fallback acquiring the fresh document `P2`
implies the reviewer is not among its historical actors. -/
theorem C4_fallback_respects_history_witness :
    "r1@x" ∉ hist_reviewers [] "P2" :=
  C4_fallback_respects_history defaultConfig "r1@x" (hist_reviewers []) 0 [some "P2"] []
    "P2" [("P2", new_lock "r1@x" 0)] (by decide)

/-- Counterexample for C4 as stated: `r1@x` has historically acted on `P1`,
the only document; the claimed relaxed fallback would assign `P1`, but the
code reports "no documents available" (`none`) instead — the historical
constraint is never relaxed. -/
theorem C4_counterexample :
    "r1@x" ∈ hist_reviewers [recHistP1] "P1"
    ∧ (assign_abstract_to_reviewer defaultConfig [some "P1"] [recHistP1] true id
        "r1@x" none 100 []).1 = none := by decide

end ManualReview
